import Mathlib

/-!
Verification of the ELF 16 KiB segment aligner
(src/scripts/align_elf_segments.py).

The binary image is modelled as a list of bytes (`List Nat`, each entry a
byte value).  Python's slice-then-unpack idiom
(`struct.unpack(fmt, data[a:b])`) raises `struct.error` when the slice is
shorter than the format needs, so reads are modelled with `Option`:
`readBytes` succeeds exactly when the requested window lies inside the
image.  An unhandled exception of the script (a failed `struct.unpack`) is
modelled as the `RunResult.fault` outcome; the explicit `return False` of
the magic-number check is `RunResult.notElf`.
-/

/-- Little-endian value of a byte list (least significant byte first),
as produced by struct.unpack with the < prefix. -/
def decodeLE : List Nat → Nat
  | [] => 0
  | b :: rest => b + 256 * decodeLE rest

/-- Value of a byte list under the byte order selected by the script:
struct format prefix < (little) when is_little_endian, > (big) otherwise. -/
def decode (little : Bool) (bs : List Nat) : Nat :=
  if little then decodeLE bs else decodeLE bs.reverse

/-- The n least-significant-first bytes of v, as struct.pack writes a
little-endian integer. -/
def encodeLE : Nat → Nat → List Nat
  | 0, _ => []
  | n + 1, v => v % 256 :: encodeLE n (v / 256)

/-- The n bytes struct.pack_into writes for value v with the chosen byte
order. -/
def encode (little : Bool) (n v : Nat) : List Nat :=
  if little then encodeLE n v else (encodeLE n v).reverse

/-- data[off:off+n] followed by struct.unpack: the n bytes starting at off,
or failure (struct.error) when the window leaves the image. -/
def readBytes (data : List Nat) (off n : Nat) : Option (List Nat) :=
  if off + n ≤ data.length then some ((data.drop off).take n) else none

/-- struct.pack_into: overwrite the bytes of data starting at off with bs,
leaving everything else in place. -/
def writeBytes (data : List Nat) (off : Nat) (bs : List Nat) : List Nat :=
  data.take off ++ bs ++ data.drop (off + bs.length)

/-- The 4-byte ELF magic signature b'\x7fELF' checked at line 27. -/
def ELF_MAGIC : List Nat := [0x7f, 0x45, 0x4c, 0x46]

/-- Facts the header parse (lines 32-46 / 72-74) extracts from the image:
ei_class byte 4, ei_data byte 5, and the program-header table offset and
entry count read from the width-dependent header offsets. -/
structure ElfParams where
  is_64bit : Bool
  is_little_endian : Bool
  phoff : Nat
  phnum : Nat
  deriving DecidableEq, Repr

/-- Program header entry size: the constant 56 (ELF64, line 46) or
32 (ELF32, line 74), never read from the file. -/
def ElfParams.phentsize (p : ElfParams) : Nat :=
  if p.is_64bit then 56 else 32

/-- Offset of p_align inside a program header entry: 0x30 (ELF64, line 60)
or 0x1c (ELF32, line 85). -/
def ElfParams.alignFieldOff (p : ElfParams) : Nat :=
  if p.is_64bit then 0x30 else 0x1c

/-- Width of the p_align field: 8 bytes (ELF64 Q format) or
4 bytes (ELF32 I format). -/
def ElfParams.alignFieldSize (p : ElfParams) : Nat :=
  if p.is_64bit then 8 else 4

/-- Header parse, lines 32-46 and 72-74 of the script: ei_class from byte 4
(is_64bit iff it equals 2), ei_data from byte 5 (little-endian iff it
equals 1), then e_phoff / e_phnum from offsets 0x20 / 0x38 (ELF64) or
0x1c / 0x2c (ELF32).  Failure is an out-of-range index or a short
struct.unpack slice. -/
def parseElf (data : List Nat) : Option ElfParams :=
  match data[4]?, data[5]? with
  | some ei_class, some ei_data =>
    let is_64bit := ei_class == 2
    let little := ei_data == 1
    if is_64bit then
      match readBytes data 0x20 8, readBytes data 0x38 2 with
      | some phoffB, some phnumB =>
        some ⟨true, little, decode little phoffB, decode little phnumB⟩
      | _, _ => none
    else
      match readBytes data 0x1c 4, readBytes data 0x2c 2 with
      | some phoffB, some phnumB =>
        some ⟨false, little, decode little phoffB, decode little phnumB⟩
      | _, _ => none
  | _, _ => none

/-- The per-entry loop (lines 51-69 / 79-93): with count entries still to
visit starting at index i, read the 4-byte p_type at phoff + i * phentsize;
when it is 1 (PT_LOAD) read the alignment field and, when its value is
below 0x4000, overwrite it in place with 0x4000 and set modified.  A failed
read (short slice) is the script's unhandled struct.error. -/
def processEntries (little : Bool) (phoff phentsize alignOff alignSize : Nat) :
    Nat → Nat → List Nat → Bool → Option (List Nat × Bool)
  | 0, _, data, modified => some (data, modified)
  | count + 1, i, data, modified =>
    match readBytes data (phoff + i * phentsize) 4 with
    | none => none
    | some tb =>
      if decode little tb = 1 then
        match readBytes data (phoff + i * phentsize + alignOff) alignSize with
        | none => none
        | some ab =>
          if decode little ab < 0x4000 then
            processEntries little phoff phentsize alignOff alignSize count (i + 1)
              (writeBytes data (phoff + i * phentsize + alignOff)
                (encode little alignSize 0x4000)) true
          else
            processEntries little phoff phentsize alignOff alignSize count (i + 1) data modified
      else
        processEntries little phoff phentsize alignOff alignSize count (i + 1) data modified

/-- Outcome of align_elf_to_16kb on an in-memory image: the explicit
format-error return (lines 27-29), an unhandled exception, or normal
completion with the final image and the modified flag. -/
inductive RunResult where
  | notElf : RunResult
  | fault : RunResult
  | ok : List Nat → Bool → RunResult
  deriving DecidableEq, Repr

/-- align_elf_to_16kb (lines 23-93) on the in-memory image: magic check,
header parse, then the entry loop started at index 0 with modified = False. -/
def align_elf_to_16kb (data : List Nat) : RunResult :=
  if data.take 4 ≠ ELF_MAGIC then RunResult.notElf
  else
    match parseElf data with
    | none => RunResult.fault
    | some p =>
      match processEntries p.is_little_endian p.phoff p.phentsize
          p.alignFieldOff p.alignFieldSize p.phnum 0 data false with
      | some (d, m) => RunResult.ok d m
      | none => RunResult.fault

/-- Process-level outcome: success (return True), failure (return False),
or crash (unhandled exception). -/
inductive Outcome where
  | success : Outcome
  | failure : Outcome
  | crash : Outcome
  deriving DecidableEq, Repr

/-- The whole operation at the file level, including the writeback of
lines 95-103: on normal completion the file is rewritten with the mutated
image only when modified is true, and True is returned in both cases; the
magic-check failure returns False without writing; an unhandled exception
crashes before any write, leaving the file unchanged. -/
def runOnFile (file : List Nat) : Outcome × List Nat :=
  match align_elf_to_16kb file with
  | RunResult.notElf => (Outcome.failure, file)
  | RunResult.fault => (Outcome.crash, file)
  | RunResult.ok d m => (Outcome.success, if m then d else file)

/-- The p_type value of entry k as read from the image, when in range. -/
def entryTypeVal (little : Bool) (phoff phentsize : Nat) (data : List Nat) (k : Nat) :
    Option Nat :=
  (readBytes data (phoff + k * phentsize) 4).map (decode little)

/-- ELF header size for each width, used to state well-formedness: a
well-formed ELF puts its program header table after the ELF header. -/
def ehdrSize (is_64bit : Bool) : Nat :=
  if is_64bit then 0x40 else 0x34

/-- Well-formedness of the program header table relative to the image: the
table starts after the ELF header and lies inside the file. -/
def tableInBounds (data : List Nat) (p : ElfParams) : Prop :=
  ehdrSize p.is_64bit ≤ p.phoff ∧ p.phoff + p.phnum * p.phentsize ≤ data.length

instance (data : List Nat) (p : ElfParams) : Decidable (tableInBounds data p) := by
  unfold tableInBounds; infer_instance

/-- A minimal 64-bit little-endian ELF image: 64-byte header, program
header table at 0x40 with two PT_LOAD entries whose alignment fields hold
0x1000 and 0x8000. -/
def ex64 : List Nat :=
  [0x7f, 0x45, 0x4c, 0x46, 2, 1, 1, 0, 0, 0, 0, 0, 0, 0, 0, 0,
   0, 0, 0, 0, 0, 0, 0, 0, 0, 0, 0, 0, 0, 0, 0, 0,
   0x40, 0, 0, 0, 0, 0, 0, 0, 0, 0, 0, 0, 0, 0, 0, 0,
   0, 0, 0, 0, 0, 0, 0, 0, 2, 0, 0, 0, 0, 0, 0, 0] ++
  ([1, 0, 0, 0] ++ List.replicate 44 0 ++ [0, 0x10, 0, 0, 0, 0, 0, 0]) ++
  ([1, 0, 0, 0] ++ List.replicate 44 0 ++ [0, 0x80, 0, 0, 0, 0, 0, 0])

/-- The image the operation produces from ex64: the first PT_LOAD alignment
is rewritten to 0x4000, the second (0x8000) is untouched. -/
def ex64out : List Nat :=
  [0x7f, 0x45, 0x4c, 0x46, 2, 1, 1, 0, 0, 0, 0, 0, 0, 0, 0, 0,
   0, 0, 0, 0, 0, 0, 0, 0, 0, 0, 0, 0, 0, 0, 0, 0,
   0x40, 0, 0, 0, 0, 0, 0, 0, 0, 0, 0, 0, 0, 0, 0, 0,
   0, 0, 0, 0, 0, 0, 0, 0, 2, 0, 0, 0, 0, 0, 0, 0] ++
  ([1, 0, 0, 0] ++ List.replicate 44 0 ++ [0, 0x40, 0, 0, 0, 0, 0, 0]) ++
  ([1, 0, 0, 0] ++ List.replicate 44 0 ++ [0, 0x80, 0, 0, 0, 0, 0, 0])

/-- The parse of ex64 (and of ex64out). -/
def exP : ElfParams := ⟨true, true, 0x40, 2⟩

/-- A 64-bit image whose header declares one program header entry at 0x40
although the file ends there: the program header table extends past the end
of the image. -/
def exTrunc : List Nat :=
  [0x7f, 0x45, 0x4c, 0x46, 2, 1, 1, 0, 0, 0, 0, 0, 0, 0, 0, 0,
   0, 0, 0, 0, 0, 0, 0, 0, 0, 0, 0, 0, 0, 0, 0, 0,
   0x40, 0, 0, 0, 0, 0, 0, 0, 0, 0, 0, 0, 0, 0, 0, 0,
   0, 0, 0, 0, 0, 0, 0, 0, 1, 0, 0, 0, 0, 0, 0, 0]

/-- A 32-bit little-endian image with a single non-loadable (type 2)
program header entry. -/
def exSkip : List Nat :=
  [0x7f, 0x45, 0x4c, 0x46, 1, 1, 1, 0, 0, 0, 0, 0, 0, 0, 0, 0,
   0, 0, 0, 0, 0, 0, 0, 0, 0, 0, 0, 0, 0x34, 0, 0, 0,
   0, 0, 0, 0, 0, 0, 0, 0, 0, 0, 0, 0, 1, 0, 0, 0,
   0, 0, 0, 0] ++
  ([2, 0, 0, 0] ++ List.replicate 24 0 ++ [0, 0x10, 0, 0])

/-- An image with an undefined class byte (7) and big-endian byte order
byte (2): the script still processes it, using the 32-bit layout. -/
def exBad : List Nat :=
  [0x7f, 0x45, 0x4c, 0x46, 7, 2, 0, 0, 0, 0, 0, 0, 0, 0, 0, 0,
   0, 0, 0, 0, 0, 0, 0, 0, 0, 0, 0, 0, 0, 0, 0, 0x34,
   0, 0, 0, 0, 0, 0, 0, 0, 0, 0, 0, 0, 0, 1, 0, 0,
   0, 0, 0, 0] ++
  ([0, 0, 0, 1] ++ List.replicate 24 0 ++ [0, 0, 0x10, 0])

/-- An input that is not an ELF file at all. -/
def exNot : List Nat := [1, 2, 3]

theorem encodeLE_length (n v : Nat) : (encodeLE n v).length = n := by
  induction n generalizing v with
  | zero => rfl
  | succ n ih => simp [encodeLE, ih]

theorem encode_length (little : Bool) (n v : Nat) : (encode little n v).length = n := by
  cases little <;> simp [encode, encodeLE_length]

theorem writeBytes_length (data : List Nat) (off : Nat) (bs : List Nat)
    (hfit : off + bs.length ≤ data.length) :
    (writeBytes data off bs).length = data.length := by
  unfold writeBytes
  simp only [List.length_append, List.length_take, List.length_drop]
  omega

theorem writeBytes_getElem (data : List Nat) (off : Nat) (bs : List Nat)
    (hfit : off + bs.length ≤ data.length) (i : Nat) :
    (writeBytes data off bs)[i]? =
      if off ≤ i ∧ i < off + bs.length then bs[i - off]? else data[i]? := by
  unfold writeBytes
  have htk : (data.take off).length = off := by
    simp only [List.length_take]; omega
  rw [List.getElem?_append, List.getElem?_append, List.getElem?_drop,
    List.getElem?_take, List.length_append, htk]
  split_ifs <;> first
    | rfl
    | omega
    | (congr 1; omega)

theorem readBytes_congr (d1 d2 : List Nat) (o n : Nat)
    (hlen : d1.length = d2.length)
    (h : ∀ i, o ≤ i → i < o + n → d1[i]? = d2[i]?) :
    readBytes d1 o n = readBytes d2 o n := by
  unfold readBytes
  rw [hlen]
  by_cases hin : o + n ≤ d2.length
  · rw [if_pos hin, if_pos hin]
    congr 1
    refine List.ext_getElem? fun i => ?_
    rw [List.getElem?_take, List.getElem?_take]
    by_cases hi : i < n
    · rw [if_pos hi, if_pos hi, List.getElem?_drop, List.getElem?_drop]
      exact h (o + i) (by omega) (by omega)
    · rw [if_neg hi, if_neg hi]
  · rw [if_neg hin, if_neg hin]

theorem readBytes_writeBytes_same (data : List Nat) (off : Nat) (bs : List Nat)
    (hfit : off + bs.length ≤ data.length) :
    readBytes (writeBytes data off bs) off bs.length = some bs := by
  unfold readBytes
  rw [writeBytes_length data off bs hfit, if_pos hfit]
  congr 1
  refine List.ext_getElem? fun i => ?_
  rw [List.getElem?_take]
  by_cases hi : i < bs.length
  · rw [if_pos hi, List.getElem?_drop, writeBytes_getElem data off bs hfit,
      if_pos (by omega)]
    congr 1
    omega
  · rw [if_neg hi, eq_comm, List.getElem?_eq_none_iff]
    omega

theorem readBytes_writeBytes_disjoint (data : List Nat) (off : Nat) (bs : List Nat)
    (o n : Nat) (hfit : off + bs.length ≤ data.length)
    (hdisj : o + n ≤ off ∨ off + bs.length ≤ o) :
    readBytes (writeBytes data off bs) o n = readBytes data o n := by
  refine readBytes_congr _ _ o n (writeBytes_length data off bs hfit) fun i h1 h2 => ?_
  rw [writeBytes_getElem data off bs hfit, if_neg (by omega)]

theorem alignField_disjoint (phoff phentsize alignOff alignSize : Nat)
    (hE : alignOff + alignSize ≤ phentsize) {j k : Nat} (hjk : j < k) :
    phoff + j * phentsize + alignOff + alignSize ≤ phoff + k * phentsize + alignOff := by
  have h1 : (j + 1) * phentsize ≤ k * phentsize :=
    Nat.mul_le_mul_right _ (Nat.succ_le_of_lt hjk)
  have h2 : j * phentsize + phentsize = (j + 1) * phentsize := by ring
  omega

theorem typeField_alignField_disjoint (phoff phentsize alignOff alignSize : Nat)
    (hA : 4 ≤ alignOff) (hE : alignOff + alignSize ≤ phentsize) (j k : Nat) :
    phoff + k * phentsize + 4 ≤ phoff + j * phentsize + alignOff ∨
      phoff + j * phentsize + alignOff + alignSize ≤ phoff + k * phentsize := by
  rcases le_or_lt k j with h | h
  · left
    have := Nat.mul_le_mul_right phentsize h
    omega
  · right
    have h1 : (j + 1) * phentsize ≤ k * phentsize :=
      Nat.mul_le_mul_right _ (Nat.succ_le_of_lt h)
    have h2 : j * phentsize + phentsize = (j + 1) * phentsize := by ring
    omega


theorem processEntries_succ_none_type (little : Bool)
    (phoff phentsize alignOff alignSize count i : Nat) (data : List Nat) (modified : Bool)
    (htb : readBytes data (phoff + i * phentsize) 4 = none) :
    processEntries little phoff phentsize alignOff alignSize (count + 1) i data modified =
      none := by
  simp only [processEntries, htb]

theorem processEntries_succ_skip (little : Bool)
    (phoff phentsize alignOff alignSize count i : Nat) (data : List Nat) (modified : Bool)
    (tb : List Nat) (htb : readBytes data (phoff + i * phentsize) 4 = some tb)
    (ht : decode little tb ≠ 1) :
    processEntries little phoff phentsize alignOff alignSize (count + 1) i data modified =
      processEntries little phoff phentsize alignOff alignSize count (i + 1) data modified := by
  simp only [processEntries, htb, if_neg ht]

theorem processEntries_succ_none_align (little : Bool)
    (phoff phentsize alignOff alignSize count i : Nat) (data : List Nat) (modified : Bool)
    (tb : List Nat) (htb : readBytes data (phoff + i * phentsize) 4 = some tb)
    (ht : decode little tb = 1)
    (hab : readBytes data (phoff + i * phentsize + alignOff) alignSize = none) :
    processEntries little phoff phentsize alignOff alignSize (count + 1) i data modified =
      none := by
  simp only [processEntries, htb, if_pos ht, hab]

theorem processEntries_succ_write (little : Bool)
    (phoff phentsize alignOff alignSize count i : Nat) (data : List Nat) (modified : Bool)
    (tb ab : List Nat) (htb : readBytes data (phoff + i * phentsize) 4 = some tb)
    (ht : decode little tb = 1)
    (hab : readBytes data (phoff + i * phentsize + alignOff) alignSize = some ab)
    (hlt : decode little ab < 0x4000) :
    processEntries little phoff phentsize alignOff alignSize (count + 1) i data modified =
      processEntries little phoff phentsize alignOff alignSize count (i + 1)
        (writeBytes data (phoff + i * phentsize + alignOff)
          (encode little alignSize 0x4000)) true := by
  simp only [processEntries, htb, if_pos ht, hab, if_pos hlt]

theorem processEntries_succ_keep (little : Bool)
    (phoff phentsize alignOff alignSize count i : Nat) (data : List Nat) (modified : Bool)
    (tb ab : List Nat) (htb : readBytes data (phoff + i * phentsize) 4 = some tb)
    (ht : decode little tb = 1)
    (hab : readBytes data (phoff + i * phentsize + alignOff) alignSize = some ab)
    (hge : ¬ decode little ab < 0x4000) :
    processEntries little phoff phentsize alignOff alignSize (count + 1) i data modified =
      processEntries little phoff phentsize alignOff alignSize count (i + 1) data modified := by
  simp only [processEntries, htb, if_pos ht, hab, if_neg hge]

theorem readBytes_fit (data : List Nat) (off n : Nat) (bs : List Nat)
    (h : readBytes data off n = some bs) : off + n ≤ data.length ∧ bs.length = n := by
  unfold readBytes at h
  by_cases hle : off + n ≤ data.length
  · rw [if_pos hle] at h
    refine ⟨hle, ?_⟩
    cases h
    simp only [List.length_take, List.length_drop]
    omega
  · rw [if_neg hle] at h
    exact absurd h (by simp)

theorem processEntries_length (little : Bool) (phoff phentsize alignOff alignSize : Nat)
    (count : Nat) :
    ∀ i data modified d m,
      processEntries little phoff phentsize alignOff alignSize count i data modified =
        some (d, m) →
      d.length = data.length := by
  induction count with
  | zero =>
    intro i data modified d m h
    simp only [processEntries, Option.some.injEq, Prod.mk.injEq] at h
    rw [h.1]
  | succ count ih =>
    intro i data modified d m h
    rcases htb : readBytes data (phoff + i * phentsize) 4 with _ | tb
    · rw [processEntries_succ_none_type _ _ _ _ _ _ _ _ _ htb] at h
      exact absurd h (by simp)
    by_cases ht : decode little tb = 1
    · rcases hab : readBytes data (phoff + i * phentsize + alignOff) alignSize with _ | ab
      · rw [processEntries_succ_none_align _ _ _ _ _ _ _ _ _ _ htb ht hab] at h
        exact absurd h (by simp)
      by_cases hlt : decode little ab < 0x4000
      · rw [processEntries_succ_write _ _ _ _ _ _ _ _ _ _ _ htb ht hab hlt] at h
        have hfit := (readBytes_fit _ _ _ _ hab).1
        rw [ih _ _ _ _ _ h]
        exact writeBytes_length _ _ _ (by rw [encode_length]; exact hfit)
      · rw [processEntries_succ_keep _ _ _ _ _ _ _ _ _ _ _ htb ht hab hlt] at h
        exact ih _ _ _ _ _ h
    · rw [processEntries_succ_skip _ _ _ _ _ _ _ _ _ _ htb ht] at h
      exact ih _ _ _ _ _ h

theorem processEntries_modified_mono (little : Bool)
    (phoff phentsize alignOff alignSize : Nat) (count : Nat) :
    ∀ i data d m,
      processEntries little phoff phentsize alignOff alignSize count i data true =
        some (d, m) →
      m = true := by
  induction count with
  | zero =>
    intro i data d m h
    simp only [processEntries, Option.some.injEq, Prod.mk.injEq] at h
    exact h.2.symm
  | succ count ih =>
    intro i data d m h
    rcases htb : readBytes data (phoff + i * phentsize) 4 with _ | tb
    · rw [processEntries_succ_none_type _ _ _ _ _ _ _ _ _ htb] at h
      exact absurd h (by simp)
    by_cases ht : decode little tb = 1
    · rcases hab : readBytes data (phoff + i * phentsize + alignOff) alignSize with _ | ab
      · rw [processEntries_succ_none_align _ _ _ _ _ _ _ _ _ _ htb ht hab] at h
        exact absurd h (by simp)
      by_cases hlt : decode little ab < 0x4000
      · rw [processEntries_succ_write _ _ _ _ _ _ _ _ _ _ _ htb ht hab hlt] at h
        exact ih _ _ _ _ h
      · rw [processEntries_succ_keep _ _ _ _ _ _ _ _ _ _ _ htb ht hab hlt] at h
        exact ih _ _ _ _ h
    · rw [processEntries_succ_skip _ _ _ _ _ _ _ _ _ _ htb ht] at h
      exact ih _ _ _ _ h

theorem processEntries_frame (little : Bool) (phoff phentsize alignOff alignSize : Nat)
    (hA : 4 ≤ alignOff) (hE : alignOff + alignSize ≤ phentsize) (count : Nat) :
    ∀ i data modified d m,
      processEntries little phoff phentsize alignOff alignSize count i data modified =
        some (d, m) →
      ∀ idx, (∀ j, i ≤ j → j < i + count →
          entryTypeVal little phoff phentsize data j = some 1 →
          idx < phoff + j * phentsize + alignOff ∨
            phoff + j * phentsize + alignOff + alignSize ≤ idx) →
      d[idx]? = data[idx]? := by
  induction count with
  | zero =>
    intro i data modified d m h idx hout
    simp only [processEntries, Option.some.injEq, Prod.mk.injEq] at h
    rw [h.1]
  | succ count ih =>
    intro i data modified d m h idx hout
    rcases htb : readBytes data (phoff + i * phentsize) 4 with _ | tb
    · rw [processEntries_succ_none_type _ _ _ _ _ _ _ _ _ htb] at h
      exact absurd h (by simp)
    by_cases ht : decode little tb = 1
    · rcases hab : readBytes data (phoff + i * phentsize + alignOff) alignSize with _ | ab
      · rw [processEntries_succ_none_align _ _ _ _ _ _ _ _ _ _ htb ht hab] at h
        exact absurd h (by simp)
      by_cases hlt : decode little ab < 0x4000
      · rw [processEntries_succ_write _ _ _ _ _ _ _ _ _ _ _ htb ht hab hlt] at h
        have hfit : phoff + i * phentsize + alignOff +
            (encode little alignSize 0x4000).length ≤ data.length := by
          rw [encode_length]
          exact (readBytes_fit _ _ _ _ hab).1
        have htype_i : entryTypeVal little phoff phentsize data i = some 1 := by
          unfold entryTypeVal
          rw [htb]
          simp [ht]
        have hidx_i := hout i le_rfl (by omega) htype_i
        have step : (writeBytes data (phoff + i * phentsize + alignOff)
            (encode little alignSize 0x4000))[idx]? = data[idx]? := by
          rw [writeBytes_getElem _ _ _ hfit]
          rw [if_neg]
          rw [encode_length]
          omega
        rw [← step]
        refine ih _ _ _ _ _ h idx fun j hj1 hj2 htj => ?_
        have htj' : entryTypeVal little phoff phentsize data j = some 1 := by
          rw [← htj]
          unfold entryTypeVal
          congr 1
          rw [readBytes_writeBytes_disjoint _ _ _ _ _ hfit]
          rw [encode_length]
          rcases typeField_alignField_disjoint phoff phentsize alignOff alignSize hA hE i j
            with hc | hc
          · left; exact hc
          · right; exact hc
        exact hout j (by omega) (by omega) htj'
      · rw [processEntries_succ_keep _ _ _ _ _ _ _ _ _ _ _ htb ht hab hlt] at h
        exact ih _ _ _ _ _ h idx fun j hj1 hj2 htj => hout j (by omega) (by omega) htj
    · rw [processEntries_succ_skip _ _ _ _ _ _ _ _ _ _ htb ht] at h
      exact ih _ _ _ _ _ h idx fun j hj1 hj2 htj => hout j (by omega) (by omega) htj

theorem processEntries_readBytes_frame (little : Bool)
    (phoff phentsize alignOff alignSize : Nat)
    (hA : 4 ≤ alignOff) (hE : alignOff + alignSize ≤ phentsize)
    (count i : Nat) (data : List Nat) (modified : Bool) (d : List Nat) (m : Bool)
    (h : processEntries little phoff phentsize alignOff alignSize count i data modified =
      some (d, m))
    (o n : Nat)
    (hout : ∀ j, i ≤ j → j < i + count →
      entryTypeVal little phoff phentsize data j = some 1 →
      o + n ≤ phoff + j * phentsize + alignOff ∨
        phoff + j * phentsize + alignOff + alignSize ≤ o) :
    readBytes d o n = readBytes data o n := by
  refine readBytes_congr _ _ o n
    (processEntries_length _ _ _ _ _ _ _ _ _ _ _ h) fun idx h1 h2 => ?_
  refine processEntries_frame _ _ _ _ _ hA hE _ _ _ _ _ _ h idx fun j hj1 hj2 htj => ?_
  rcases hout j hj1 hj2 htj with hc | hc
  · left; omega
  · right; omega

theorem processEntries_entryTypeVal (little : Bool)
    (phoff phentsize alignOff alignSize : Nat)
    (hA : 4 ≤ alignOff) (hE : alignOff + alignSize ≤ phentsize)
    (count i : Nat) (data : List Nat) (modified : Bool) (d : List Nat) (m : Bool)
    (h : processEntries little phoff phentsize alignOff alignSize count i data modified =
      some (d, m)) (k : Nat) :
    entryTypeVal little phoff phentsize d k = entryTypeVal little phoff phentsize data k := by
  unfold entryTypeVal
  congr 1
  refine processEntries_readBytes_frame _ _ _ _ _ hA hE _ _ _ _ _ _ h _ _
    fun j hj1 hj2 htj => ?_
  exact typeField_alignField_disjoint phoff phentsize alignOff alignSize hA hE j k

theorem processEntries_alignField_frame (little : Bool)
    (phoff phentsize alignOff alignSize : Nat)
    (hA : 4 ≤ alignOff) (hE : alignOff + alignSize ≤ phentsize)
    (count i : Nat) (data : List Nat) (modified : Bool) (d : List Nat) (m : Bool)
    (h : processEntries little phoff phentsize alignOff alignSize count i data modified =
      some (d, m)) (k : Nat)
    (hk : k < i ∨ i + count ≤ k ∨ entryTypeVal little phoff phentsize data k ≠ some 1) :
    readBytes d (phoff + k * phentsize + alignOff) alignSize =
      readBytes data (phoff + k * phentsize + alignOff) alignSize := by
  refine processEntries_readBytes_frame _ _ _ _ _ hA hE _ _ _ _ _ _ h _ _
    fun j hj1 hj2 htj => ?_
  have hjk : j ≠ k := by
    rcases hk with hc | hc | hc
    · omega
    · omega
    · intro he; rw [he] at htj; exact hc htj
  rcases Nat.lt_or_ge j k with hc | hc
  · right
    exact alignField_disjoint phoff phentsize alignOff alignSize hE hc
  · left
    have : k < j := by omega
    exact alignField_disjoint phoff phentsize alignOff alignSize hE this

theorem processEntries_spec (little : Bool) (phoff phentsize alignOff alignSize : Nat)
    (hA : 4 ≤ alignOff) (hE : alignOff + alignSize ≤ phentsize) (count : Nat) :
    ∀ i data modified d m,
      processEntries little phoff phentsize alignOff alignSize count i data modified =
        some (d, m) →
      ∀ k, i ≤ k → k < i + count →
      ∃ tb, readBytes data (phoff + k * phentsize) 4 = some tb ∧
        (decode little tb = 1 →
          ∃ ab, readBytes data (phoff + k * phentsize + alignOff) alignSize = some ab ∧
            ((decode little ab < 0x4000 →
               readBytes d (phoff + k * phentsize + alignOff) alignSize =
                 some (encode little alignSize 0x4000) ∧ m = true) ∧
             (0x4000 ≤ decode little ab →
               readBytes d (phoff + k * phentsize + alignOff) alignSize = some ab))) := by
  induction count with
  | zero =>
    intro i data modified d m h k hk1 hk2
    omega
  | succ count ih =>
    intro i data modified d m h k hk1 hk2
    rcases htb : readBytes data (phoff + i * phentsize) 4 with _ | tb
    · rw [processEntries_succ_none_type _ _ _ _ _ _ _ _ _ htb] at h
      exact absurd h (by simp)
    by_cases ht : decode little tb = 1
    · rcases hab : readBytes data (phoff + i * phentsize + alignOff) alignSize with _ | ab
      · rw [processEntries_succ_none_align _ _ _ _ _ _ _ _ _ _ htb ht hab] at h
        exact absurd h (by simp)
      have hfit : phoff + i * phentsize + alignOff +
          (encode little alignSize 0x4000).length ≤ data.length := by
        rw [encode_length]
        exact (readBytes_fit _ _ _ _ hab).1
      by_cases hlt : decode little ab < 0x4000
      · rw [processEntries_succ_write _ _ _ _ _ _ _ _ _ _ _ htb ht hab hlt] at h
        rcases Nat.eq_or_lt_of_le hk1 with hk | hk
        · refine ⟨tb, by rw [← hk]; exact htb, fun _ => ⟨ab, by rw [← hk]; exact hab, ?_, ?_⟩⟩
          · intro _
            constructor
            · have hfr := processEntries_alignField_frame _ _ _ _ _ hA hE _ _ _ _ _ _ h i
                (Or.inl (by omega))
              rw [← hk, hfr]
              have := readBytes_writeBytes_same data (phoff + i * phentsize + alignOff)
                (encode little alignSize 0x4000) hfit
              rw [encode_length] at this
              exact this
            · exact processEntries_modified_mono _ _ _ _ _ _ _ _ _ _ h
          · intro hge
            omega
        · have hks := ih _ _ _ _ _ h k hk (by omega)
          have htype_eq : readBytes (writeBytes data (phoff + i * phentsize + alignOff)
              (encode little alignSize 0x4000)) (phoff + k * phentsize) 4 =
              readBytes data (phoff + k * phentsize) 4 := by
            rw [readBytes_writeBytes_disjoint _ _ _ _ _ hfit]
            rw [encode_length]
            exact typeField_alignField_disjoint phoff phentsize alignOff alignSize hA hE i k
          have halign_eq : readBytes (writeBytes data (phoff + i * phentsize + alignOff)
              (encode little alignSize 0x4000)) (phoff + k * phentsize + alignOff) alignSize =
              readBytes data (phoff + k * phentsize + alignOff) alignSize := by
            rw [readBytes_writeBytes_disjoint _ _ _ _ _ hfit]
            rw [encode_length]
            right
            exact alignField_disjoint phoff phentsize alignOff alignSize hE hk
          rw [htype_eq, halign_eq] at hks
          exact hks
      · rw [processEntries_succ_keep _ _ _ _ _ _ _ _ _ _ _ htb ht hab hlt] at h
        rcases Nat.eq_or_lt_of_le hk1 with hk | hk
        · refine ⟨tb, by rw [← hk]; exact htb, fun _ => ⟨ab, by rw [← hk]; exact hab, ?_, ?_⟩⟩
          · intro hlt'
            exact absurd hlt' hlt
          · intro _
            have hfr := processEntries_alignField_frame _ _ _ _ _ hA hE _ _ _ _ _ _ h i
              (Or.inl (by omega))
            rw [← hk, hfr]
            exact hab
        · exact ih _ _ _ _ _ h k hk (by omega)
    · rw [processEntries_succ_skip _ _ _ _ _ _ _ _ _ _ htb ht] at h
      rcases Nat.eq_or_lt_of_le hk1 with hk | hk
      · refine ⟨tb, by rw [← hk]; exact htb, fun ht' => absurd ht' ht⟩
      · exact ih _ _ _ _ _ h k hk (by omega)

theorem processEntries_noop (little : Bool) (phoff phentsize alignOff alignSize : Nat)
    (count : Nat) :
    ∀ i data modified,
      (∀ k, i ≤ k → k < i + count →
        ∃ tb, readBytes data (phoff + k * phentsize) 4 = some tb ∧
          (decode little tb = 1 →
            ∃ ab, readBytes data (phoff + k * phentsize + alignOff) alignSize = some ab ∧
              0x4000 ≤ decode little ab)) →
      processEntries little phoff phentsize alignOff alignSize count i data modified =
        some (data, modified) := by
  induction count with
  | zero =>
    intro i data modified _
    rfl
  | succ count ih =>
    intro i data modified hvisit
    obtain ⟨tb, htb, hload⟩ := hvisit i le_rfl (by omega)
    by_cases ht : decode little tb = 1
    · obtain ⟨ab, hab, hge⟩ := hload ht
      rw [processEntries_succ_keep _ _ _ _ _ _ _ _ _ _ _ htb ht hab (by omega)]
      exact ih _ _ _ fun k hk1 hk2 => hvisit k (by omega) (by omega)
    · rw [processEntries_succ_skip _ _ _ _ _ _ _ _ _ _ htb ht]
      exact ih _ _ _ fun k hk1 hk2 => hvisit k (by omega) (by omega)

theorem processEntries_not_modified (little : Bool)
    (phoff phentsize alignOff alignSize : Nat) (count : Nat) :
    ∀ i data modified d,
      processEntries little phoff phentsize alignOff alignSize count i data modified =
        some (d, false) →
      d = data ∧ modified = false := by
  induction count with
  | zero =>
    intro i data modified d h
    simp only [processEntries, Option.some.injEq, Prod.mk.injEq] at h
    exact ⟨h.1.symm, h.2⟩
  | succ count ih =>
    intro i data modified d h
    rcases htb : readBytes data (phoff + i * phentsize) 4 with _ | tb
    · rw [processEntries_succ_none_type _ _ _ _ _ _ _ _ _ htb] at h
      exact absurd h (by simp)
    by_cases ht : decode little tb = 1
    · rcases hab : readBytes data (phoff + i * phentsize + alignOff) alignSize with _ | ab
      · rw [processEntries_succ_none_align _ _ _ _ _ _ _ _ _ _ htb ht hab] at h
        exact absurd h (by simp)
      by_cases hlt : decode little ab < 0x4000
      · rw [processEntries_succ_write _ _ _ _ _ _ _ _ _ _ _ htb ht hab hlt] at h
        have := processEntries_modified_mono _ _ _ _ _ _ _ _ _ _ h
        exact absurd this (by simp)
      · rw [processEntries_succ_keep _ _ _ _ _ _ _ _ _ _ _ htb ht hab hlt] at h
        exact ih _ _ _ _ h
    · rw [processEntries_succ_skip _ _ _ _ _ _ _ _ _ _ htb ht] at h
      exact ih _ _ _ _ h

theorem decode_encode_0x4000 (little : Bool) (n : Nat) (hn : n = 4 ∨ n = 8) :
    decode little (encode little n 0x4000) = 0x4000 := by
  rcases hn with h | h <;> subst h <;> cases little <;> decide

theorem ElfParams_field_bounds (p : ElfParams) :
    4 ≤ p.alignFieldOff ∧ p.alignFieldOff + p.alignFieldSize ≤ p.phentsize ∧
      (p.alignFieldSize = 4 ∨ p.alignFieldSize = 8) := by
  unfold ElfParams.alignFieldOff ElfParams.alignFieldSize ElfParams.phentsize
  cases p.is_64bit <;> simp

theorem align_elf_ok_inv (data d : List Nat) (m : Bool)
    (hrun : align_elf_to_16kb data = RunResult.ok d m) :
    data.take 4 = ELF_MAGIC ∧
    ∃ p, parseElf data = some p ∧
      processEntries p.is_little_endian p.phoff p.phentsize p.alignFieldOff
        p.alignFieldSize p.phnum 0 data false = some (d, m) := by
  unfold align_elf_to_16kb at hrun
  by_cases hm : data.take 4 ≠ ELF_MAGIC
  · rw [if_pos hm] at hrun
    exact absurd hrun (by simp)
  · rw [if_neg hm] at hrun
    rw [ne_eq, not_not] at hm
    refine ⟨hm, ?_⟩
    rcases hp : parseElf data with _ | p
    · simp only [hp] at hrun
      exact absurd hrun (by simp)
    · simp only [hp] at hrun
      rcases hpe : processEntries p.is_little_endian p.phoff p.phentsize p.alignFieldOff
          p.alignFieldSize p.phnum 0 data false with _ | dm
      · simp only [hpe] at hrun
        exact absurd hrun (by simp)
      · obtain ⟨d', m'⟩ := dm
        simp only [hpe, RunResult.ok.injEq] at hrun
        refine ⟨p, rfl, ?_⟩
        rw [hpe, hrun.1, hrun.2]

theorem align_elf_notElf_iff (data : List Nat) :
    align_elf_to_16kb data = RunResult.notElf ↔ data.take 4 ≠ ELF_MAGIC := by
  unfold align_elf_to_16kb
  by_cases hm : data.take 4 ≠ ELF_MAGIC
  · rw [if_pos hm]
    exact iff_of_true rfl hm
  · rw [if_neg hm]
    refine iff_of_false ?_ hm
    rcases hp : parseElf data with _ | p
    · simp
    · rcases hpe : processEntries p.is_little_endian p.phoff p.phentsize p.alignFieldOff
          p.alignFieldSize p.phnum 0 data false with _ | dm
      · simp [hpe]
      · obtain ⟨d, m⟩ := dm
        simp [hpe]

theorem parseElf_fields (data : List Nat) (p : ElfParams)
    (hp : parseElf data = some p) :
    ∃ ei_class ei_data, data[4]? = some ei_class ∧ data[5]? = some ei_data ∧
      p.is_64bit = (ei_class == 2) ∧ p.is_little_endian = (ei_data == 1) ∧
      (p.is_64bit = true →
        p.phentsize = 56 ∧
        ∃ ob nb, readBytes data 0x20 8 = some ob ∧ readBytes data 0x38 2 = some nb ∧
          p.phoff = decode p.is_little_endian ob ∧
          p.phnum = decode p.is_little_endian nb) ∧
      (p.is_64bit = false →
        p.phentsize = 32 ∧
        ∃ ob nb, readBytes data 0x1c 4 = some ob ∧ readBytes data 0x2c 2 = some nb ∧
          p.phoff = decode p.is_little_endian ob ∧
          p.phnum = decode p.is_little_endian nb) := by
  unfold parseElf at hp
  rcases h4 : data[4]? with _ | c
  · rw [h4] at hp
    exact absurd hp (by simp)
  rcases h5 : data[5]? with _ | e
  · rw [h4, h5] at hp
    exact absurd hp (by simp)
  simp only [h4, h5] at hp
  refine ⟨c, e, rfl, rfl, ?_⟩
  by_cases hc : (c == 2) = true
  · rw [if_pos hc] at hp
    rcases hoa : readBytes data 0x20 8 with _ | ob
    · rw [hoa] at hp
      exact absurd hp (by simp)
    rcases hob : readBytes data 0x38 2 with _ | nb
    · rw [hoa, hob] at hp
      exact absurd hp (by simp)
    simp only [hoa, hob, Option.some.injEq] at hp
    subst hp
    refine ⟨by simp [hc], rfl, fun _ => ⟨rfl, ob, nb, rfl, rfl, rfl, rfl⟩, fun hff => ?_⟩
    exact absurd hff (by simp)
  · rw [if_neg hc] at hp
    rcases hoa : readBytes data 0x1c 4 with _ | ob
    · rw [hoa] at hp
      exact absurd hp (by simp)
    rcases hob : readBytes data 0x2c 2 with _ | nb
    · rw [hoa, hob] at hp
      exact absurd hp (by simp)
    simp only [hoa, hob, Option.some.injEq] at hp
    subst hp
    have hc' : (c == 2) = false := by
      simp only [Bool.not_eq_true] at hc
      exact hc
    refine ⟨by simp [hc'], rfl, fun htt => ?_, fun _ => ⟨rfl, ob, nb, rfl, rfl, rfl, rfl⟩⟩
    exact absurd htt (by simp)

/-- C5: the operation reports a format error exactly when the first four
bytes of the image differ from the ELF magic signature 0x7f 'E' 'L' 'F';
on such an input it returns the failure outcome and the stored file is
left byte-for-byte unchanged (no write is ever performed). -/
theorem claim5_magic_rejection (data : List Nat) :
    (align_elf_to_16kb data = RunResult.notElf ↔ data.take 4 ≠ ELF_MAGIC) ∧
    (data.take 4 ≠ ELF_MAGIC → runOnFile data = (Outcome.failure, data)) := by
  refine ⟨align_elf_notElf_iff data, fun hm => ?_⟩
  unfold runOnFile
  rw [(align_elf_notElf_iff data).mpr hm]

/-- Witness for C5 at the concrete non-ELF image exNot. -/
theorem claim5_witness :
    (align_elf_to_16kb exNot = RunResult.notElf ↔ exNot.take 4 ≠ ELF_MAGIC) ∧
    runOnFile exNot = (Outcome.failure, exNot) :=
  ⟨(claim5_magic_rejection exNot).1, (claim5_magic_rejection exNot).2 (by decide)⟩

/-- C6: on every image the parser accepts, the program-header-table offset
and entry count are read from the width-dependent fixed header offsets
(8-byte offset at 0x20 and 2-byte count at 0x38 for 64-bit; 4-byte offset
at 0x1c and 2-byte count at 0x2c for 32-bit) in the byte order given by
identification byte 5, and the entry size is the constant 56 or 32, never
read from the file. -/
theorem claim6_parser_layout (data : List Nat) (p : ElfParams)
    (hp : parseElf data = some p) :
    ∃ ei_class ei_data, data[4]? = some ei_class ∧ data[5]? = some ei_data ∧
      p.is_64bit = (ei_class == 2) ∧ p.is_little_endian = (ei_data == 1) ∧
      (p.is_64bit = true →
        p.phentsize = 56 ∧
        ∃ ob nb, readBytes data 0x20 8 = some ob ∧ readBytes data 0x38 2 = some nb ∧
          p.phoff = decode p.is_little_endian ob ∧
          p.phnum = decode p.is_little_endian nb) ∧
      (p.is_64bit = false →
        p.phentsize = 32 ∧
        ∃ ob nb, readBytes data 0x1c 4 = some ob ∧ readBytes data 0x2c 2 = some nb ∧
          p.phoff = decode p.is_little_endian ob ∧
          p.phnum = decode p.is_little_endian nb) :=
  parseElf_fields data p hp

set_option maxRecDepth 4000 in
/-- Witness for C6 at the concrete 64-bit image ex64. -/
theorem claim6_witness :
    ∃ ei_class ei_data, ex64[4]? = some ei_class ∧ ex64[5]? = some ei_data ∧
      exP.is_64bit = (ei_class == 2) ∧ exP.is_little_endian = (ei_data == 1) ∧
      (exP.is_64bit = true →
        exP.phentsize = 56 ∧
        ∃ ob nb, readBytes ex64 0x20 8 = some ob ∧ readBytes ex64 0x38 2 = some nb ∧
          exP.phoff = decode exP.is_little_endian ob ∧
          exP.phnum = decode exP.is_little_endian nb) ∧
      (exP.is_64bit = false →
        exP.phentsize = 32 ∧
        ∃ ob nb, readBytes ex64 0x1c 4 = some ob ∧ readBytes ex64 0x2c 2 = some nb ∧
          exP.phoff = decode exP.is_little_endian ob ∧
          exP.phnum = decode exP.is_little_endian nb) :=
  claim6_parser_layout ex64 exP (by decide)

/-- C9: the identification bytes are not validated: any class byte other
than 2 selects the 32-bit layout (offsets 0x1c / 0x2c, 32-byte entries,
4-byte alignment field), any byte-order byte other than 1 selects
big-endian, and an image with a good magic number never produces the
format-error outcome, whatever bytes 4 and 5 hold. -/
theorem claim9_no_ident_validation (data : List Nat) (ei_class ei_data : Nat)
    (h4 : data[4]? = some ei_class) (h5 : data[5]? = some ei_data) :
    (∀ p, parseElf data = some p →
      (ei_class ≠ 2 → p.is_64bit = false ∧ p.phentsize = 32 ∧
        p.alignFieldOff = 0x1c ∧ p.alignFieldSize = 4) ∧
      (ei_data ≠ 1 → p.is_little_endian = false)) ∧
    (data.take 4 = ELF_MAGIC → align_elf_to_16kb data ≠ RunResult.notElf) := by
  constructor
  · intro p hp
    obtain ⟨c, e, h4', h5', hcls, hend, _, _⟩ := parseElf_fields data p hp
    rw [h4] at h4'
    rw [h5] at h5'
    have hc : c = ei_class := (Option.some.inj h4').symm
    have he : e = ei_data := (Option.some.inj h5').symm
    subst hc
    subst he
    constructor
    · intro hne
      have hfalse : p.is_64bit = false := by
        rw [hcls]
        simp [hne]
      refine ⟨hfalse, ?_, ?_, ?_⟩ <;>
        simp [ElfParams.phentsize, ElfParams.alignFieldOff, ElfParams.alignFieldSize, hfalse]
    · intro hne
      rw [hend]
      simp [hne]
  · intro hm
    intro hne
    exact (align_elf_notElf_iff data).mp hne hm

set_option maxRecDepth 4000 in
/-- Witness for C9 at exBad, whose class byte is the undefined value 7 and
whose byte-order byte is 2 (big-endian): it is parsed with the 32-bit
layout and big-endian order, and no format error is raised. -/
theorem claim9_witness :
    ((ElfParams.mk false false 0x34 1).is_64bit = false ∧
      (ElfParams.mk false false 0x34 1).phentsize = 32 ∧
      (ElfParams.mk false false 0x34 1).alignFieldOff = 0x1c ∧
      (ElfParams.mk false false 0x34 1).alignFieldSize = 4) ∧
    (ElfParams.mk false false 0x34 1).is_little_endian = false ∧
    align_elf_to_16kb exBad ≠ RunResult.notElf :=
  ⟨((claim9_no_ident_validation exBad 7 2 (by decide) (by decide)).1
      ⟨false, false, 0x34, 1⟩ (by decide)).1 (by decide),
   ((claim9_no_ident_validation exBad 7 2 (by decide) (by decide)).1
      ⟨false, false, 0x34, 1⟩ (by decide)).2 (by decide),
   (claim9_no_ident_validation exBad 7 2 (by decide) (by decide)).2 (by decide)⟩

set_option maxRecDepth 4000 in
/-- C10: a concrete image that passes the magic check but whose declared
program header table extends past the end of the image (0x40 + 1 * 56 >
length 64) makes the operation fault with an unhandled read error rather
than return the defined failure outcome, and the stored file is unchanged
because the fault happens before any write. -/
theorem claim10_truncated_table_fault :
    parseElf exTrunc = some ⟨true, true, 0x40, 1⟩ ∧
    exTrunc.length < 0x40 + 1 * 56 ∧
    align_elf_to_16kb exTrunc = RunResult.fault ∧
    runOnFile exTrunc = (Outcome.crash, exTrunc) := by
  decide

/-- C8: on normal completion the operation returns success whether or not
anything changed; the file is rewritten with the mutated image exactly when
the modified flag is true, and when the flag is false the image was never
mutated at all, so the stored file stays untouched. -/
theorem claim8_writeback (file d : List Nat) (m : Bool)
    (hrun : align_elf_to_16kb file = RunResult.ok d m) :
    (runOnFile file).1 = Outcome.success ∧
    (m = true → runOnFile file = (Outcome.success, d)) ∧
    (m = false → runOnFile file = (Outcome.success, file) ∧ d = file) := by
  refine ⟨?_, ?_, ?_⟩
  · unfold runOnFile
    rw [hrun]
  · intro hm
    subst hm
    unfold runOnFile
    rw [hrun]
    simp
  · intro hm
    subst hm
    obtain ⟨_, p, _, hpe⟩ := align_elf_ok_inv file d false hrun
    have hdf := (processEntries_not_modified _ _ _ _ _ _ _ _ _ _ hpe).1
    refine ⟨?_, hdf⟩
    unfold runOnFile
    rw [hrun]
    simp

set_option maxRecDepth 4000 in
/-- Witness for C8 at ex64, where the run modifies the image. -/
theorem claim8_witness :
    (runOnFile ex64).1 = Outcome.success ∧
    runOnFile ex64 = (Outcome.success, ex64out) :=
  ⟨(claim8_writeback ex64 ex64out true (by decide)).1,
   (claim8_writeback ex64 ex64out true (by decide)).2.1 rfl⟩

/-- C1: for every loadable (p_type = 1) program header entry, an alignment
value below 0x4000 is overwritten in place with exactly 0x4000 (written
with the entry's field width and the file's byte order) and the modified
flag is set, while a value at or above 0x4000 is left byte-for-byte
untouched. -/
theorem claim1_load_alignment_update (data d : List Nat) (m : Bool) (p : ElfParams)
    (hp : parseElf data = some p)
    (hrun : align_elf_to_16kb data = RunResult.ok d m)
    (k : Nat) (hk : k < p.phnum) (tb ab : List Nat)
    (htb : readBytes data (p.phoff + k * p.phentsize) 4 = some tb)
    (ht : decode p.is_little_endian tb = 1)
    (hab : readBytes data (p.phoff + k * p.phentsize + p.alignFieldOff)
      p.alignFieldSize = some ab) :
    (decode p.is_little_endian ab < 0x4000 →
      readBytes d (p.phoff + k * p.phentsize + p.alignFieldOff) p.alignFieldSize =
        some (encode p.is_little_endian p.alignFieldSize 0x4000) ∧ m = true) ∧
    (0x4000 ≤ decode p.is_little_endian ab →
      readBytes d (p.phoff + k * p.phentsize + p.alignFieldOff) p.alignFieldSize =
        some ab) := by
  obtain ⟨_, p', hp', hpe⟩ := align_elf_ok_inv data d m hrun
  rw [hp, Option.some.injEq] at hp'
  subst hp'
  obtain ⟨hA, hE, _⟩ := ElfParams_field_bounds p
  obtain ⟨tb', htb', hload⟩ := processEntries_spec p.is_little_endian p.phoff p.phentsize
    p.alignFieldOff p.alignFieldSize hA hE p.phnum 0 data false d m hpe k
    (Nat.zero_le k) (by omega)
  rw [htb] at htb'
  have htbeq : tb = tb' := Option.some.inj htb'
  subst htbeq
  obtain ⟨ab', hab', hwrite, hkeep⟩ := hload ht
  rw [hab] at hab'
  have habeq : ab = ab' := Option.some.inj hab'
  subst habeq
  exact ⟨hwrite, hkeep⟩

set_option maxRecDepth 4000 in
/-- Witness for C1 at ex64, entry 0 (alignment 0x1000, rewritten). -/
theorem claim1_witness :
    readBytes ex64out (exP.phoff + 0 * exP.phentsize + exP.alignFieldOff)
        exP.alignFieldSize =
      some (encode exP.is_little_endian exP.alignFieldSize 0x4000) ∧ true = true :=
  (claim1_load_alignment_update ex64 ex64out true exP (by decide) (by decide) 0
    (by decide) [1, 0, 0, 0] [0, 0x10, 0, 0, 0, 0, 0, 0] (by decide) (by decide)
    (by decide)).1 (by decide)

/-- C2: a successful run keeps the image length unchanged and leaves every
byte outside the alignment fields of loadable-segment (p_type = 1) entries
exactly as it was in the input image. -/
theorem claim2_byte_exact_passthrough (data d : List Nat) (m : Bool) (p : ElfParams)
    (hp : parseElf data = some p)
    (hrun : align_elf_to_16kb data = RunResult.ok d m) :
    d.length = data.length ∧
    ∀ idx, (∀ k, k < p.phnum →
        entryTypeVal p.is_little_endian p.phoff p.phentsize data k = some 1 →
        idx < p.phoff + k * p.phentsize + p.alignFieldOff ∨
          p.phoff + k * p.phentsize + p.alignFieldOff + p.alignFieldSize ≤ idx) →
      d[idx]? = data[idx]? := by
  obtain ⟨_, p', hp', hpe⟩ := align_elf_ok_inv data d m hrun
  rw [hp, Option.some.injEq] at hp'
  subst hp'
  obtain ⟨hA, hE, _⟩ := ElfParams_field_bounds p
  refine ⟨processEntries_length _ _ _ _ _ _ _ _ _ _ _ hpe, fun idx hout => ?_⟩
  exact processEntries_frame p.is_little_endian p.phoff p.phentsize p.alignFieldOff
    p.alignFieldSize hA hE p.phnum 0 data false d m hpe idx
    fun j hj1 hj2 htj => hout j (by omega) htj

set_option maxRecDepth 4000 in
/-- Witness for C2 at ex64: byte 5 lies outside both PT_LOAD alignment
fields and is unchanged. -/
theorem claim2_witness :
    ex64out.length = ex64.length ∧ ex64out[5]? = ex64[5]? :=
  ⟨(claim2_byte_exact_passthrough ex64 ex64out true exP (by decide) (by decide)).1,
   (claim2_byte_exact_passthrough ex64 ex64out true exP (by decide) (by decide)).2 5
     fun k hk ht =>
       match k, hk with
       | 0, _ => Or.inl (by decide)
       | 1, _ => Or.inl (by decide)
       | n + 2, h => absurd (show n + 2 < 2 from h) (by omega)⟩

/-- C3: after a successful run, every loadable (p_type = 1) entry's
alignment value is at least 0x4000 and at least its pre-run value. -/
theorem claim3_monotone_alignment (data d : List Nat) (m : Bool) (p : ElfParams)
    (hp : parseElf data = some p)
    (hrun : align_elf_to_16kb data = RunResult.ok d m)
    (k : Nat) (hk : k < p.phnum) (tb ab : List Nat)
    (htb : readBytes data (p.phoff + k * p.phentsize) 4 = some tb)
    (ht : decode p.is_little_endian tb = 1)
    (hab : readBytes data (p.phoff + k * p.phentsize + p.alignFieldOff)
      p.alignFieldSize = some ab) :
    ∃ ab', readBytes d (p.phoff + k * p.phentsize + p.alignFieldOff)
        p.alignFieldSize = some ab' ∧
      0x4000 ≤ decode p.is_little_endian ab' ∧
      decode p.is_little_endian ab ≤ decode p.is_little_endian ab' := by
  obtain ⟨_, p', hp', hpe⟩ := align_elf_ok_inv data d m hrun
  rw [hp, Option.some.injEq] at hp'
  subst hp'
  obtain ⟨hA, hE, hS⟩ := ElfParams_field_bounds p
  obtain ⟨tb', htb', hload⟩ := processEntries_spec p.is_little_endian p.phoff p.phentsize
    p.alignFieldOff p.alignFieldSize hA hE p.phnum 0 data false d m hpe k
    (Nat.zero_le k) (by omega)
  rw [htb] at htb'
  have htbeq : tb = tb' := Option.some.inj htb'
  subst htbeq
  obtain ⟨ab', hab', hwrite, hkeep⟩ := hload ht
  rw [hab] at hab'
  have habeq : ab = ab' := Option.some.inj hab'
  subst habeq
  by_cases hlt : decode p.is_little_endian ab < 0x4000
  · obtain ⟨hread, _⟩ := hwrite hlt
    refine ⟨encode p.is_little_endian p.alignFieldSize 0x4000, hread, ?_, ?_⟩
    · rw [decode_encode_0x4000 p.is_little_endian p.alignFieldSize hS]
    · rw [decode_encode_0x4000 p.is_little_endian p.alignFieldSize hS]
      omega
  · refine ⟨ab, hkeep (by omega), by omega, le_rfl⟩

set_option maxRecDepth 4000 in
/-- Witness for C3 at ex64, entry 1 (alignment 0x8000, preserved). -/
theorem claim3_witness :
    ∃ ab', readBytes ex64out (exP.phoff + 1 * exP.phentsize + exP.alignFieldOff)
        exP.alignFieldSize = some ab' ∧
      0x4000 ≤ decode exP.is_little_endian ab' ∧
      decode exP.is_little_endian [0, 0x80, 0, 0, 0, 0, 0, 0] ≤
        decode exP.is_little_endian ab' :=
  claim3_monotone_alignment ex64 ex64out true exP (by decide) (by decide) 1
    (by decide) [1, 0, 0, 0] [0, 0x80, 0, 0, 0, 0, 0, 0] (by decide) (by decide)
    (by decide)

theorem parseElf_congr (d1 d2 : List Nat)
    (h4 : d1[4]? = d2[4]?) (h5 : d1[5]? = d2[5]?)
    (h64a : readBytes d1 0x20 8 = readBytes d2 0x20 8)
    (h64b : readBytes d1 0x38 2 = readBytes d2 0x38 2)
    (h32a : readBytes d1 0x1c 4 = readBytes d2 0x1c 4)
    (h32b : readBytes d1 0x2c 2 = readBytes d2 0x2c 2) :
    parseElf d1 = parseElf d2 := by
  unfold parseElf
  rw [h4, h5, h64a, h64b, h32a, h32b]

/-- C7: the loop visits entries in ascending index order, the entry at
index i living at file offset phoff + i * phentsize; an entry whose p_type
is not 1 is skipped (the state passes to index i + 1 with image and flag
untouched), and the alignment field of such an entry is never written. -/
theorem claim7_visit_order (little : Bool) (phoff phentsize alignOff alignSize : Nat) :
    (∀ count i data modified tb,
      readBytes data (phoff + i * phentsize) 4 = some tb →
      decode little tb ≠ 1 →
      processEntries little phoff phentsize alignOff alignSize (count + 1) i data modified =
        processEntries little phoff phentsize alignOff alignSize count (i + 1) data
          modified) ∧
    (4 ≤ alignOff → alignOff + alignSize ≤ phentsize →
      ∀ count i data modified d m,
        processEntries little phoff phentsize alignOff alignSize count i data modified =
          some (d, m) →
        ∀ k, entryTypeVal little phoff phentsize data k ≠ some 1 →
        readBytes d (phoff + k * phentsize + alignOff) alignSize =
          readBytes data (phoff + k * phentsize + alignOff) alignSize) := by
  constructor
  · intro count i data modified tb htb ht
    exact processEntries_succ_skip _ _ _ _ _ _ _ _ _ _ htb ht
  · intro hA hE count i data modified d m h k htk
    exact processEntries_alignField_frame _ _ _ _ _ hA hE _ _ _ _ _ _ h k
      (Or.inr (Or.inr htk))

set_option maxRecDepth 4000 in
/-- Witness for C7: the non-loadable (type 2) entry of exSkip is skipped
with image and flag unchanged, and the alignment field of an entry that is
not loadable is never rewritten (entry index 2 of ex64). -/
theorem claim7_witness :
    (processEntries true 0x34 32 0x1c 4 (0 + 1) 0 exSkip false =
      processEntries true 0x34 32 0x1c 4 0 (0 + 1) exSkip false) ∧
    readBytes ex64out (0x40 + 2 * 56 + 0x30) 8 =
      readBytes ex64 (0x40 + 2 * 56 + 0x30) 8 :=
  ⟨(claim7_visit_order true 0x34 32 0x1c 4).1 0 0 exSkip false [2, 0, 0, 0]
      (by decide) (by decide),
   (claim7_visit_order true 0x40 56 0x30 8).2 (by decide) (by decide) 2 0 ex64 false
      ex64out true (by decide) 2 (by decide)⟩

/-- C4: the operation is idempotent: on a well-formed ELF image (good
magic, program header table after the ELF header and inside the file), a
second run on the output of a successful run reports modified = false and
returns the output image unchanged. -/
theorem claim4_idempotent (data d : List Nat) (m : Bool) (p : ElfParams)
    (hmagic : data.take 4 = ELF_MAGIC)
    (hp : parseElf data = some p)
    (hwf : tableInBounds data p)
    (hrun : align_elf_to_16kb data = RunResult.ok d m) :
    align_elf_to_16kb d = RunResult.ok d false := by
  obtain ⟨_, p', hp', hpe⟩ := align_elf_ok_inv data d m hrun
  rw [hp, Option.some.injEq] at hp'
  subst hp'
  obtain ⟨hA, hE, hS⟩ := ElfParams_field_bounds p
  obtain ⟨hhdr, htab⟩ := hwf
  have h1 : 0x3a ≤ ehdrSize p.is_64bit + p.alignFieldOff := by
    unfold ehdrSize ElfParams.alignFieldOff
    cases p.is_64bit <;> simp
  have hsafe : ∀ o n, o + n ≤ 0x3a → readBytes d o n = readBytes data o n := by
    intro o n hon
    refine processEntries_readBytes_frame _ _ _ _ _ hA hE _ _ _ _ _ _ hpe o n
      fun j hj1 hj2 htj => Or.inl (by omega)
  have hbyte : ∀ idx, idx < 0x3a → d[idx]? = data[idx]? := by
    intro idx hidx
    refine processEntries_frame _ _ _ _ _ hA hE _ _ _ _ _ _ hpe idx
      fun j hj1 hj2 htj => Or.inl (by omega)
  have hmagicd : d.take 4 = ELF_MAGIC := by
    rw [← hmagic]
    refine List.ext_getElem? fun i => ?_
    rw [List.getElem?_take, List.getElem?_take]
    by_cases hi : i < 4
    · rw [if_pos hi, if_pos hi]
      exact hbyte i (by omega)
    · rw [if_neg hi, if_neg hi]
  have hpd : parseElf d = some p := by
    rw [← hp]
    exact parseElf_congr d data (hbyte 4 (by omega)) (hbyte 5 (by omega))
      (hsafe 0x20 8 (by omega)) (hsafe 0x38 2 (by omega))
      (hsafe 0x1c 4 (by omega)) (hsafe 0x2c 2 (by omega))
  have htype_read : ∀ k, readBytes d (p.phoff + k * p.phentsize) 4 =
      readBytes data (p.phoff + k * p.phentsize) 4 := fun k =>
    processEntries_readBytes_frame _ _ _ _ _ hA hE _ _ _ _ _ _ hpe _ _
      fun j hj1 hj2 htj =>
        typeField_alignField_disjoint p.phoff p.phentsize p.alignFieldOff
          p.alignFieldSize hA hE j k
  have hnoop : processEntries p.is_little_endian p.phoff p.phentsize p.alignFieldOff
      p.alignFieldSize p.phnum 0 d false = some (d, false) := by
    refine processEntries_noop _ _ _ _ _ _ _ _ _ fun k hk0 hk => ?_
    obtain ⟨tb, htb, hload⟩ := processEntries_spec _ _ _ _ _ hA hE _ _ _ _ _ _ hpe k hk0
      (by omega)
    refine ⟨tb, by rw [htype_read k]; exact htb, fun ht1 => ?_⟩
    obtain ⟨ab, hab, hwrite, hkeep⟩ := hload ht1
    by_cases hlt : decode p.is_little_endian ab < 0x4000
    · obtain ⟨hread, _⟩ := hwrite hlt
      exact ⟨encode p.is_little_endian p.alignFieldSize 0x4000, hread,
        (decode_encode_0x4000 p.is_little_endian p.alignFieldSize hS).ge⟩
    · exact ⟨ab, hkeep (by omega), by omega⟩
  unfold align_elf_to_16kb
  rw [if_neg (not_not_intro hmagicd)]
  simp only [hpd, hnoop]

set_option maxRecDepth 4000 in
/-- Witness for C4 at ex64: a second run on the produced image ex64out is
a no-op with modified = false. -/
theorem claim4_witness : align_elf_to_16kb ex64out = RunResult.ok ex64out false :=
  claim4_idempotent ex64 ex64out true exP (by decide) (by decide) (by decide) (by decide)
